import Mathlib

/-
Verification of the crontab document model and install pipeline of
cockpit-cronmanager (src/cronmanager/app.js), as a shallow embedding.
JavaScript strings are modelled as Lean `String` / `List Char`; the
JS string primitives used by the source (`trim`, `trimEnd`,
`split(/\s+/)`, `split(/\r?\n/)`, truthiness of strings and of
possibly-null values) are embedded explicitly below.
-/

namespace Cronmanager

/-- JS whitespace class (the `\s` regex class and the class used by
`String.prototype.trim`), modelled by `Char.isWhitespace`. -/
def isWs (c : Char) : Bool := c.isWhitespace

/-- Model of JS `String.prototype.trimEnd` at the character-list level:
drop trailing whitespace. -/
def jsTrimEnd (l : List Char) : List Char := (l.reverse.dropWhile isWs).reverse

/-- Model of JS `String.prototype.trim`: drop leading and trailing
whitespace. -/
def jsTrim (l : List Char) : List Char := jsTrimEnd (l.dropWhile isWs)

/-- Accumulator-based splitter computing the maximal non-whitespace runs
of a character list, in order. -/
def wsFieldsAux (acc : List Char) : List Char → List (List Char)
  | [] => if acc = [] then [] else [acc.reverse]
  | c :: cs =>
    if isWs c then
      if acc = [] then wsFieldsAux [] cs else acc.reverse :: wsFieldsAux [] cs
    else wsFieldsAux (c :: acc) cs

/-- The maximal non-whitespace runs ("fields") of a character list. -/
def wsFields (l : List Char) : List (List Char) := wsFieldsAux [] l

/-- Model of JS `String.prototype.split(/\s+/)`: the pieces between the
maximal whitespace runs.  A leading (resp. trailing) whitespace run
contributes a leading (resp. trailing) empty piece, and splitting the
empty string yields `[[]]`, as in JS. -/
def jsSplitWs (l : List Char) : List (List Char) :=
  match l with
  | [] => [[]]
  | c :: _ =>
    (if isWs c then [[]] else []) ++ wsFields l ++
      (if isWs (l.getLastD c) then [[]] else [])

/-- Embedding of `validateCron` (app.js lines 182-188):
`const parts = expr.trim().split(/\s+/); if (parts.length < 5 ||
parts.length > 7) return false; return parts.every(Boolean);`
(`every(Boolean)` is true iff every part is a non-empty string). -/
def validateCron (expr : String) : Bool :=
  let parts := jsSplitWs (jsTrim expr.data)
  if parts.length < 5 || parts.length > 7 then false
  else parts.all (fun p => !p.isEmpty)

/-- Prepend a character to the first piece of a non-empty list of pieces
(used by the line splitter below to extend the current line). -/
def consHead (c : Char) : List (List Char) → List (List Char)
  | [] => [[c]]
  | h :: t => (c :: h) :: t

/-- Model of JS `String.prototype.split(/\r?\n/)` (app.js line 192):
line separators are `"\r\n"` or `"\n"`; a lone `'\r'` is an ordinary
character.  Splitting the empty string yields one empty line. -/
def splitLines : List Char → List (List Char)
  | [] => [[]]
  | c :: cs =>
    if c = '\n' then [] :: splitLines cs
    else
      if c = '\r' then
        match cs with
        | '\n' :: cs' => [] :: splitLines cs'
        | [] => consHead c (splitLines [])
        | d :: cs' => consHead c (splitLines (d :: cs'))
      else consHead c (splitLines cs)

/-- Join pieces with `'\n'`, the model of JS `Array.prototype.join("\n")`
(app.js line 449). -/
def joinLines : List (List Char) → List Char
  | [] => []
  | [l] => l
  | l :: l' :: ls => l ++ '\n' :: joinLines (l' :: ls)

/-- The three line kinds of the parsed crontab document
(app.js line 46: `{type: 'entry'|'comment'|'blank', ...}`). -/
inductive LineKind where
  | entry
  | comment
  | blank
deriving DecidableEq, Repr

/-- One parsed crontab line: its kind, its exact text (no newline) and
its zero-based position in the source text (app.js line 46). -/
structure CronLine where
  kind : LineKind
  text : String
  lineIdx : Nat
deriving DecidableEq, Repr

/-- Classification of one line (app.js lines 195-197): blank when empty
after trimming, comment when the first non-whitespace character is `'#'`
(the regex `/^\s*#/`), entry otherwise. -/
def classifyLine (l : List Char) : LineKind :=
  if jsTrim l = [] then LineKind.blank
  else if (l.dropWhile isWs).head? = some '#' then LineKind.comment
  else LineKind.entry

/-- Build the parsed lines from the split pieces, numbering from `n`
(the `forEach((l, idx) => ...)` of app.js lines 194-198). -/
def mkLines (n : Nat) : List (List Char) → List CronLine
  | [] => []
  | l :: ls => ⟨classifyLine l, String.mk l, n⟩ :: mkLines (n + 1) ls

/-- Embedding of `parseCrontab` (app.js lines 191-200): split the raw
text on `/\r?\n/` and classify each line, keeping its text and index. -/
def parseCrontab (raw : String) : List CronLine :=
  mkLines 0 (splitLines raw.data)

/-- Serialization used by the code when rebuilding content from parsed
lines (app.js line 449): join the line texts with `"\n"` and append a
final `"\n"`. -/
def serialize (doc : List CronLine) : String :=
  String.mk (joinLines (doc.map (fun cl => cl.text.data)) ++ ['\n'])

/-- The round-trip claim's success predicate, following the spec's
words: `serialize(parse(T))` equals `T` with, at most, a normalized
trailing newline — i.e. the result is `T` itself or `T` with its
trailing newlines normalized to exactly one. -/
def specRoundTripOk (T : String) : Prop :=
  serialize (parseCrontab T) = T ∨
    serialize (parseCrontab T) =
      String.mk ((T.data.reverse.dropWhile (fun c => c = '\n')).reverse ++ ['\n'])

/-- Result of the entry-adding operation: the schedule is validated
before anything else; on failure the operation stops with an error and
performs no host interaction, otherwise it hands the rebuilt content to
the install pipeline (app.js lines 435-444). -/
inductive AddResult where
  | validationError
  | install (content : String)
deriving DecidableEq, Repr

/-- The new crontab line built by `addEntry` (app.js line 441):
`expr.trim() + ' ' + cmd.trim()`. -/
def addLine (expr cmd : String) : String :=
  String.mk (jsTrim expr.data) ++ " " ++ String.mk (jsTrim cmd.data)

/-- The new content built by `addEntry` (app.js line 442):
`rawCrontab.trimEnd() + "\n" + line + "\n"` when the current raw text
is non-empty and not whitespace-only, else `line + "\n"`. -/
def addContent (raw expr cmd : String) : String :=
  if raw ≠ "" && String.mk (jsTrim raw.data) ≠ "" then
    String.mk (jsTrimEnd raw.data) ++ "\n" ++ addLine expr cmd ++ "\n"
  else addLine expr cmd ++ "\n"

/-- Embedding of `addEntry` (app.js lines 435-444): reject invalid
schedules before any host interaction; otherwise rebuild the content
and hand it to the install pipeline. -/
def addEntry (raw expr cmd : String) : AddResult :=
  if validateCron expr = false then AddResult.validationError
  else AddResult.install (addContent raw expr cmd)

/-- Model of JS `Array.prototype.filter((_, i) => keep i)`: keep the
elements whose position (counting from `n`) satisfies `keep`. -/
def filterIdx (keep : Nat → Bool) : Nat → List α → List α
  | _, [] => []
  | n, a :: l =>
    if keep n then a :: filterIdx keep (n + 1) l else filterIdx keep (n + 1) l

/-- The surviving line texts of `deleteEntryAt` (app.js line 448):
`parsedLines.filter((_, i) => i !== parsedIndex).map(p => p.text)`. -/
def deleteEntryLines (lines : List CronLine) (i : Nat) : List String :=
  (filterIdx (fun n => n ≠ i) 0 lines).map (fun p => p.text)

/-- Embedding of `deleteEntryAt` (app.js lines 447-451): rebuild the
content from the surviving lines, joined with `"\n"` plus a trailing
`"\n"`, and hand it to the install pipeline. -/
def deleteEntryAt (lines : List CronLine) (i : Nat) : String :=
  String.mk (joinLines ((deleteEntryLines lines i).map (fun t => t.data)) ++ ['\n'])

/-- Shape of a rejected `cockpit.spawn` promise as used by the code: an
object possibly carrying `problem`, `message`, `stderr`, `stdout`
(absent fields are `none`), plus the string its `toString()` would
produce (used by `isAccessDenied` when `message` is absent or empty). -/
structure SpawnErr where
  problem : Option String
  message : Option String
  stderr : Option String
  stdout : Option String
  str : String
deriving DecidableEq, Repr

/-- Lower-case a character list, the model of JS `toLowerCase` (the
patterns matched by the code are ASCII). -/
def lowerL (l : List Char) : List Char := l.map Char.toLower

/-- Does `pat` match at the start of `hay`? -/
def leadMatch : List Char → List Char → Bool
  | [], _ => true
  | _ :: _, [] => false
  | p :: ps, h :: hs => p == h && leadMatch ps hs

/-- Does `pat` occur contiguously anywhere in `hay`?  Model of JS
`indexOf(pat) !== -1` / regex substring match. -/
def occursIn (pat : List Char) : List Char → Bool
  | [] => leadMatch pat []
  | h :: hs => leadMatch pat (h :: hs) || occursIn pat hs

/-- JS `a || b` on a possibly-null string `a`: `b` when `a` is absent or
empty (falsy), `a` otherwise. -/
def jsOrStr (a : Option String) (b : String) : String :=
  match a with
  | some s => if s = "" then b else s
  | none => b

/-- The alternatives of the access-denial regex of `isAccessDenied`
(app.js line 108). -/
def accessPatterns : List String :=
  ["permission denied", "access denied", "authorization", "not authorized"]

/-- Embedding of `isAccessDenied` (app.js lines 104-109): true when
`err.problem === 'access-denied'`, or when the case-insensitive pattern
`/permission denied|access denied|authorization|not authorized/i`
matches `err.message || err.toString()`. -/
def isAccessDenied (e : SpawnErr) : Bool :=
  if e.problem == some "access-denied" then true
  else
    accessPatterns.any
      (fun p => occursIn (lowerL p.data) (lowerL (jsOrStr e.message e.str).data))

/-- Embedding of `errorText` (app.js lines 111-129): concatenate the
truthy (present and non-empty) fields `stderr`, `stdout`, `message`,
`problem`, in that order, joined with `"\n"`.  (The array-normalization
branch is not modelled: fields are already strings here.) -/
def errorText (e : SpawnErr) : String :=
  String.intercalate "\n"
    (([e.stderr, e.stdout, e.message, e.problem].filterMap id).filter
      (fun s => s ≠ ""))

/-- Outcome of the read path's failure handler (app.js lines 375-396). -/
inductive LoadOutcome where
  | accessDenied
  | noExisting
  | generic
deriving DecidableEq, Repr

/-- The failure classification performed by `loadCrontab`'s catch block
(app.js lines 375-395): access denial is checked first, then the
case-insensitive presence of `"no crontab for"` in the combined error
text, and anything else is a generic read error. -/
def classifyLoadFailure (e : SpawnErr) : LoadOutcome :=
  if isAccessDenied e then LoadOutcome.accessDenied
  else if occursIn ("no crontab for".data) (lowerL (errorText e).data) then
    LoadOutcome.noExisting
  else LoadOutcome.generic

/-- The in-memory document state of the session: `rawCrontab` and
`parsedLines` (app.js lines 45-46). -/
structure DocState where
  rawCrontab : String
  parsedLines : List CronLine
deriving DecidableEq, Repr

/-- Effect of `loadCrontab`'s catch block on the document state: a
denied read and a generic failure leave the state unchanged (only an
error is shown), while the no-crontab outcome resets the state to the
empty document (app.js lines 375-395). -/
def loadFailureUpdate (e : SpawnErr) (st : DocState) : DocState :=
  match classifyLoadFailure e with
  | LoadOutcome.accessDenied => st
  | LoadOutcome.noExisting => ⟨"", []⟩
  | LoadOutcome.generic => st

/-- JS `a || b` on possibly-null strings (null and the empty string are
falsy). -/
def jsOr (a b : Option String) : Option String :=
  match a with
  | some s => if s = "" then b else some s
  | none => b

/-- Embedding of `getSelectedUserValue` (app.js lines 76-79) for a
present user selector: `userSelect.value || currentUser || null`.
`selectValue` is the selector's DOM value (the empty string when
nothing is selected) and `currentUser` is null until detected. -/
def getSelectedUserValue (selectValue : String) (currentUser : Option String) :
    Option String :=
  jsOr (some selectValue) (jsOr currentUser none)

/-- Embedding of `getUserForCrontabFlag` (app.js lines 81-84):
`getSelectedUserValue() || null`. -/
def getUserForCrontabFlag (selectValue : String) (currentUser : Option String) :
    Option String :=
  jsOr (getSelectedUserValue selectValue currentUser) none

/-- Embedding of `isDifferentUser` (app.js lines 86-91): false when
there is no target at all, true when the current user is unknown (or
falsy), otherwise a plain inequality test against the current user. -/
def isDifferentUser (selectValue : String) (currentUser : Option String) : Bool :=
  match getUserForCrontabFlag selectValue currentUser with
  | none => false
  | some t =>
    match currentUser with
    | none => true
    | some c => if c = "" then true else decide (t ≠ c)

/-- The spec's `TargetIdentity`: the caller's own identity and the
optionally selected target account.  It maps onto the code's state as
`selectValue := selectedUser.getD ""` (an absent selection is the empty
DOM value) and `currentUser := some currentUser`. -/
structure TargetIdentity where
  currentUser : String
  selectedUser : Option String
deriving DecidableEq, Repr

/-- The spec's `requiresElevation`, realized by the code's
`isDifferentUser` under the `TargetIdentity` mapping above. -/
def requiresElevation (t : TargetIdentity) : Bool :=
  isDifferentUser (t.selectedUser.getD "") (some t.currentUser)

/-- A single-quote character, used to spell the `<<'EOF'` here-doc
marker of the write command. -/
def sq : String := String.mk ['\x27']

/-- The here-doc opener `" <<'EOF'\n"` of the write command
(app.js line 411). -/
def hereMark : String := " <<" ++ sq ++ "EOF" ++ sq ++ "\n"

/-- Embedding of the write command of `installCrontab` (app.js
line 411): `["/bin/sh","-c", "cat > " + tmp + " <<'EOF'\n" +
newContent + "\nEOF\n"]`.  The document content is concatenated into
the shell script that is the third argv element. -/
def writeCmd (tmp content : String) : List String :=
  ["/bin/sh", "-c", "cat > " ++ tmp ++ hereMark ++ content ++ "\nEOF\n"]

/-- The `mktemp` argv of the pipeline (app.js line 405). -/
def mktempArgv : List String := ["mktemp", "-t", "cockpit-cron-XXXXXX"]

/-- The crontab-replace argv (app.js line 415), targeted at the
selected user when one is set. -/
def installArgv : Option String → String → List String
  | some u, tmp => ["crontab", "-u", u, tmp]
  | none, tmp => ["crontab", tmp]

/-- The temp-file removal argv (app.js line 418). -/
def rmArgv (tmp : String) : List String := ["rm", "-f", tmp]

/-- The crontab-read argv of `loadCrontab` (app.js line 363), run by
the pipeline's final reload. -/
def listArgv : Option String → List String
  | some u => ["crontab", "-u", u, "-l"]
  | none => ["crontab", "-l"]

/-- The host's response to each spawned command of one pipeline run:
either resolved output or a rejection. -/
structure InstallEnv where
  mktempRes : Except SpawnErr String
  writeRes : Except SpawnErr String
  installRes : Except SpawnErr String
  rmRes : Except SpawnErr String
deriving Repr

/-- Outcome reported by `installCrontab`'s try/catch (app.js
lines 422-431): success, or the access-denied message, or the generic
install-failure message. -/
inductive PipeOutcome where
  | success
  | accessDenied
  | genericFail
deriving DecidableEq, Repr

/-- The catch block of `installCrontab` (app.js lines 422-431). -/
def catchClass (e : SpawnErr) : PipeOutcome :=
  if isAccessDenied e then PipeOutcome.accessDenied else PipeOutcome.genericFail

/-- The `Error('Failed to create temp file on host.')` thrown at
app.js line 408, as seen by the catch block. -/
def emptyTmpErr : SpawnErr :=
  ⟨none, some "Failed to create temp file on host.", none, none,
    "Error: Failed to create temp file on host."⟩

/-- One finished pipeline run: the argv of every command it spawned, in
order, and the reported outcome. -/
structure InstallRun where
  trace : List (List String)
  outcome : PipeOutcome
deriving DecidableEq, Repr

/-- Embedding of `installCrontab` (app.js lines 400-432): mktemp, then
the here-doc write, then the crontab replace, then `rm -f` of the temp
file, then the reload; the first rejection jumps to the catch block and
no later command runs.  The reload's own result does not change the
reported outcome (`loadCrontab` handles its failures internally). -/
def installCrontab (content : String) (userFlag : Option String)
    (env : InstallEnv) : InstallRun :=
  match env.mktempRes with
  | Except.error e => ⟨[mktempArgv], catchClass e⟩
  | Except.ok out =>
    let tmp := String.mk (jsTrim out.data)
    if tmp = "" then ⟨[mktempArgv], catchClass emptyTmpErr⟩
    else
      match env.writeRes with
      | Except.error e => ⟨[mktempArgv, writeCmd tmp content], catchClass e⟩
      | Except.ok _ =>
        match env.installRes with
        | Except.error e =>
          ⟨[mktempArgv, writeCmd tmp content, installArgv userFlag tmp],
            catchClass e⟩
        | Except.ok _ =>
          match env.rmRes with
          | Except.error e =>
            ⟨[mktempArgv, writeCmd tmp content, installArgv userFlag tmp,
              rmArgv tmp], catchClass e⟩
          | Except.ok _ =>
            ⟨[mktempArgv, writeCmd tmp content, installArgv userFlag tmp,
              rmArgv tmp, listArgv userFlag], PipeOutcome.success⟩

/-- Outcome vocabulary for a whole mutation request.  `busy` is the
spec's claimed rejection of a second in-flight mutation; it is part of
the vocabulary so the claim can be stated, the code itself never
produces it. -/
inductive MutOutcome where
  | success
  | busy
  | failed
deriving DecidableEq, Repr

/-- Identifier of one of two overlapping mutation runs in a session. -/
inductive RunId where
  | r1
  | r2
deriving DecidableEq, Repr

/-- The atomic phases of one `addEntry` mutation run, at the
granularity of the code's await points: `compute` validates and builds
the new content from the session's current `rawCrontab` (synchronous
prefix of `addEntry`, app.js lines 435-443); `install` makes the host's
crontab equal that content (the awaited temp-file/crontab sequence,
lines 405-418, assumed to succeed); `reload` re-reads the host state
into the session (line 421 via `loadCrontab`) and reports success. -/
inductive CAct where
  | compute (r : RunId)
  | install (r : RunId)
  | reload (r : RunId)
deriving DecidableEq, Repr

/-- Session-plus-host state for two overlapping mutation runs: the
session's `rawCrontab`, the host's actual crontab content, each run's
computed content (none before its `compute` phase, or when validation
rejected it) and each run's reported outcome. -/
structure Sess where
  raw : String
  host : String
  c1 : Option String
  c2 : Option String
  o1 : Option MutOutcome
  o2 : Option MutOutcome
deriving DecidableEq, Repr

/-- Read the content register of a run. -/
def Sess.contentOf (s : Sess) : RunId → Option String
  | RunId.r1 => s.c1
  | RunId.r2 => s.c2

/-- The parameters (schedule, command) of each run. -/
def RunPar := RunId → String × String

/-- Small-step semantics of the two overlapping runs, directly from the
code: `compute` runs `addEntry` against the session's current raw text;
`install` replaces the host crontab with the computed content;
`reload` copies the host state back into the session and completes the
run with success (the code has no in-flight guard, so no step consults
any busy state). -/
def cstep (p : RunPar) (s : Sess) : CAct → Sess
  | CAct.compute RunId.r1 =>
    match addEntry s.raw (p RunId.r1).1 (p RunId.r1).2 with
    | AddResult.validationError => s
    | AddResult.install content => { s with c1 := some content }
  | CAct.compute RunId.r2 =>
    match addEntry s.raw (p RunId.r2).1 (p RunId.r2).2 with
    | AddResult.validationError => s
    | AddResult.install content => { s with c2 := some content }
  | CAct.install r =>
    match s.contentOf r with
    | some content => { s with host := content }
    | none => s
  | CAct.reload RunId.r1 => { s with raw := s.host, o1 := some MutOutcome.success }
  | CAct.reload RunId.r2 => { s with raw := s.host, o2 := some MutOutcome.success }

/-- Run a schedule of phases from a starting state. -/
def execActs (p : RunPar) (s : Sess) (acts : List CAct) : Sess :=
  acts.foldl (cstep p) s

/-- The phases of one run, in program order. -/
def runActs (r : RunId) : List CAct :=
  [CAct.compute r, CAct.install r, CAct.reload r]

/-- `Interleaving xs ys zs`: `zs` is an order-preserving merge of `xs`
and `ys`.  Because every phase boundary of a run is an await point and
the code takes no lock and keeps no in-flight flag, every interleaving
of two runs' phases is a realizable event-loop schedule. -/
inductive Interleaving : List CAct → List CAct → List CAct → Prop where
  | nil : Interleaving [] [] []
  | left {x : CAct} {xs ys zs : List CAct} :
      Interleaving xs ys zs → Interleaving (x :: xs) ys (x :: zs)
  | right {y : CAct} {xs ys zs : List CAct} :
      Interleaving xs ys zs → Interleaving xs (y :: ys) (y :: zs)

/-- The schedule in which the second mutation is issued while the first
run is suspended at its first await: both runs compute their content
from the same pre-run session state, then each installs and reloads. -/
def overlapSched : List CAct :=
  [CAct.compute RunId.r1, CAct.compute RunId.r2,
   CAct.install RunId.r1, CAct.reload RunId.r1,
   CAct.install RunId.r2, CAct.reload RunId.r2]

theorem wsFieldsAux_ne_nil :
    ∀ (l : List Char) (acc f : List Char), f ∈ wsFieldsAux acc l → f ≠ [] := by
  intro l
  induction l with
  | nil =>
    intro acc f hf
    by_cases h : acc = [] <;> simp [wsFieldsAux, h] at hf
    subst hf
    simpa using h
  | cons c cs ih =>
    intro acc f hf
    by_cases hws : isWs c
    · by_cases h : acc = []
      · simp [wsFieldsAux, hws, h] at hf
        exact ih [] f hf
      · simp [wsFieldsAux, hws, h] at hf
        rcases hf with hf | hf
        · subst hf; simpa using h
        · exact ih [] f hf
    · simp [wsFieldsAux, hws] at hf
      exact ih (c :: acc) f hf

theorem wsFieldsAux_allWs :
    ∀ (w : List Char), (∀ c ∈ w, isWs c = true) →
      ∀ acc, wsFieldsAux acc w = wsFieldsAux acc [] := by
  intro w
  induction w with
  | nil => intro _ acc; rfl
  | cons c cs ih =>
    intro hw acc
    have hc : isWs c = true := hw c (by simp)
    have hcs : ∀ c ∈ cs, isWs c = true := fun x hx => hw x (by simp [hx])
    by_cases h : acc = []
    · simp [wsFieldsAux, hc, h, ih hcs []]
    · simp [wsFieldsAux, hc, h, ih hcs []]

theorem wsFieldsAux_append_ws :
    ∀ (l w : List Char), (∀ c ∈ w, isWs c = true) →
      ∀ acc, wsFieldsAux acc (l ++ w) = wsFieldsAux acc l := by
  intro l
  induction l with
  | nil => intro w hw acc; simpa using wsFieldsAux_allWs w hw acc
  | cons c cs ih =>
    intro w hw acc
    by_cases hws : isWs c
    · by_cases h : acc = [] <;>
        simp [wsFieldsAux, hws, h, ih w hw []]
    · simp [wsFieldsAux, hws, ih w hw (c :: acc)]

theorem wsFields_dropLead :
    ∀ l : List Char, wsFields (l.dropWhile isWs) = wsFields l := by
  intro l
  induction l with
  | nil => rfl
  | cons c cs ih =>
    by_cases hws : isWs c
    · rw [List.dropWhile_cons]
      simp only [hws, if_true]
      rw [ih]
      simp [wsFields, wsFieldsAux, hws]
    · rw [List.dropWhile_cons]
      simp [hws]

theorem jsTrimEnd_decomp (l : List Char) :
    ∃ w, l = jsTrimEnd l ++ w ∧ ∀ c ∈ w, isWs c = true := by
  refine ⟨(l.reverse.takeWhile isWs).reverse, ?_, ?_⟩
  · have h := List.takeWhile_append_dropWhile isWs l.reverse
    calc l = l.reverse.reverse := l.reverse_reverse.symm
      _ = (List.takeWhile isWs l.reverse ++ List.dropWhile isWs l.reverse).reverse := by
          rw [h]
      _ = (List.dropWhile isWs l.reverse).reverse ++
            (List.takeWhile isWs l.reverse).reverse := by
          rw [List.reverse_append]
  · intro c hc
    rw [List.mem_reverse] at hc
    exact List.mem_takeWhile_imp hc

theorem wsFields_trimEnd (l : List Char) : wsFields (jsTrimEnd l) = wsFields l := by
  obtain ⟨w, hw, hws⟩ := jsTrimEnd_decomp l
  conv_rhs => rw [hw]
  exact (wsFieldsAux_append_ws (jsTrimEnd l) w hws []).symm

theorem wsFields_trim (l : List Char) : wsFields (jsTrim l) = wsFields l := by
  unfold jsTrim
  rw [wsFields_trimEnd, wsFields_dropLead]

theorem dropWhile_head?_ws {l : List Char} {c : Char} {cs : List Char}
    (h : l.dropWhile isWs = c :: cs) : isWs c = false := by
  have := List.head?_dropWhile_not isWs l
  rw [h] at this
  simpa using this

theorem jsTrimEnd_head? (l : List Char) (h : jsTrimEnd l ≠ []) :
    (jsTrimEnd l).head? = l.head? := by
  obtain ⟨w, hw, _⟩ := jsTrimEnd_decomp l
  conv_rhs => rw [hw]
  rw [List.head?_append]
  cases hh : (jsTrimEnd l).head? with
  | none => exact absurd (List.head?_eq_none_iff.mp hh) h
  | some c => rfl

theorem jsTrim_head_ws {l : List Char} {c : Char} {cs : List Char}
    (h : jsTrim l = c :: cs) : isWs c = false := by
  unfold jsTrim at h
  have hne : jsTrimEnd (l.dropWhile isWs) ≠ [] := by simp [h]
  have := jsTrimEnd_head? (l.dropWhile isWs) hne
  rw [h] at this
  cases hd : l.dropWhile isWs with
  | nil => rw [hd] at this; simp at this
  | cons d ds =>
    rw [hd] at this
    simp at this
    rw [← this] at hd
    exact dropWhile_head?_ws hd

theorem jsTrim_getLast?_ws {l : List Char} {c : Char}
    (h : (jsTrim l).getLast? = some c) : isWs c = false := by
  unfold jsTrim jsTrimEnd at h
  rw [List.getLast?_reverse] at h
  cases hd : (l.dropWhile isWs).reverse.dropWhile isWs with
  | nil => rw [hd] at h; simp at h
  | cons d ds =>
    rw [hd] at h
    simp at h
    rw [h] at hd
    exact dropWhile_head?_ws hd

theorem jsTrim_nil_iff (l : List Char) :
    jsTrim l = [] ↔ ∀ c ∈ l, isWs c = true := by
  unfold jsTrim jsTrimEnd
  rw [List.reverse_eq_nil_iff, List.dropWhile_eq_nil_iff]
  constructor
  · intro h c hc
    by_cases hmem : c ∈ l.dropWhile isWs
    · exact h c (List.mem_reverse.mpr hmem)
    · rcases (List.takeWhile_append_dropWhile isWs l).symm ▸ hc with hmm
      rw [List.mem_append] at hmm
      rcases hmm with hmm | hmm
      · exact List.mem_takeWhile_imp hmm
      · exact absurd hmm hmem
  · intro h c hc
    rw [List.mem_reverse] at hc
    have : c ∈ l := by
      have := @List.dropWhile_sublist Char l isWs
      exact this.mem hc
    exact h c this

theorem jsSplitWs_of_trim (l : List Char) :
    jsSplitWs (jsTrim l) = if jsTrim l = [] then [[]] else wsFields l := by
  cases ht : jsTrim l with
  | nil => simp [jsSplitWs]
  | cons c cs =>
    have hhead : isWs c = false := jsTrim_head_ws ht
    have hlast : isWs ((c :: cs).getLastD c) = false := by
      rw [List.getLastD_eq_getLast?]
      cases hg : (c :: cs).getLast? with
      | none => simp at hg
      | some d =>
        simp only [Option.getD_some]
        exact jsTrim_getLast?_ws (ht ▸ hg)
    have hunf : jsSplitWs (c :: cs) =
        (if isWs c then [[]] else []) ++ wsFields (c :: cs) ++
          (if isWs ((c :: cs).getLastD c) then [[]] else []) := rfl
    rw [hunf]
    simp only [hhead, hlast, Bool.false_eq_true, if_false, List.nil_append,
      List.append_nil]
    rw [← ht, wsFields_trim]
    rw [if_neg (show ¬jsTrim l = [] by simp [ht])]

/-- C6: `validateCron expr` returns true if and only if splitting
`expr` on runs of whitespace yields between 5 and 7 fields inclusive,
all non-empty (`wsFields expr.data` are exactly the maximal
non-whitespace runs of `expr`, so the non-emptiness condition is
automatically satisfied). -/
theorem c6_isValidSchedule (expr : String) :
    validateCron expr = true ↔
      (5 ≤ (wsFields expr.data).length ∧ (wsFields expr.data).length ≤ 7 ∧
        ∀ f ∈ wsFields expr.data, f ≠ []) := by
  simp only [validateCron]
  rw [jsSplitWs_of_trim]
  by_cases ht : jsTrim expr.data = []
  · rw [if_pos ht]
    have hw : wsFields expr.data = [] := by
      rw [← wsFields_trim, ht]
      rfl
    simp [hw]
  · rw [if_neg ht]
    by_cases hlen : ((wsFields expr.data).length < 5 ∨ (wsFields expr.data).length > 7)
    · rw [if_pos (by simpa using hlen)]
      simp only [Bool.false_eq_true, false_iff]
      rintro ⟨h1, h2, -⟩
      omega
    · rw [if_neg (by simpa using hlen)]
      push_neg at hlen
      have hall : (wsFields expr.data).all (fun p => !p.isEmpty) = true := by
        rw [List.all_eq_true]
        intro p hp
        have := wsFieldsAux_ne_nil expr.data [] p hp
        simpa [List.isEmpty_iff] using this
      rw [hall]
      simp only [true_iff]
      refine ⟨by omega, by omega, ?_⟩
      intro f hf
      exact wsFieldsAux_ne_nil expr.data [] f hf

/-- Boundary witness for C6, obtained from `c6_isValidSchedule`:
`"* * * * *"` is valid, while a 4-field expression, an 8-field
expression and the empty string are invalid. -/
theorem c6_isValidSchedule_witness :
    validateCron "* * * * *" = true ∧ validateCron "* * * *" = false ∧
      validateCron "a b c d e f g h" = false ∧ validateCron "" = false := by
  refine ⟨(c6_isValidSchedule "* * * * *").mpr (by decide), ?_, ?_, ?_⟩
  · cases hb : validateCron "* * * *" with
    | false => rfl
    | true =>
      have := (c6_isValidSchedule "* * * *").mp hb
      revert this
      decide
  · cases hb : validateCron "a b c d e f g h" with
    | false => rfl
    | true =>
      have := (c6_isValidSchedule "a b c d e f g h").mp hb
      revert this
      decide
  · cases hb : validateCron "" with
    | false => rfl
    | true =>
      have := (c6_isValidSchedule "").mp hb
      revert this
      decide

/-- C8: `requiresElevation` returns false exactly when the selected
user is absent or equals the current user, and true otherwise.  The
hypothesis excludes the degenerate identity whose selected user is the
empty string, which cannot arise from the user selector (an absent
selection is `none`, mapped to the empty DOM value). -/
theorem c8_requiresElevation (t : TargetIdentity) (h : t.selectedUser ≠ some "") :
    requiresElevation t = false ↔
      (t.selectedUser = none ∨ t.selectedUser = some t.currentUser) := by
  obtain ⟨cu, su⟩ := t
  cases su with
  | none =>
    by_cases hcu : cu = "" <;>
      simp [requiresElevation, isDifferentUser, getUserForCrontabFlag,
        getSelectedUserValue, jsOr, hcu]
  | some s =>
    have hs : s ≠ "" := by
      intro hs
      exact h (by simp [hs])
    by_cases hcu : cu = ""
    · subst hcu
      simp [requiresElevation, isDifferentUser, getUserForCrontabFlag,
        getSelectedUserValue, jsOr, hs]
    · by_cases hsc : s = cu
      · subst hsc
        simp [requiresElevation, isDifferentUser, getUserForCrontabFlag,
          getSelectedUserValue, jsOr, hs, hcu]
      · simp [requiresElevation, isDifferentUser, getUserForCrontabFlag,
          getSelectedUserValue, jsOr, hs, hcu, hsc]

/-- Witness for C8 at a concrete cross-user identity: selecting `root`
while running as `alice` requires elevation. -/
theorem c8_requiresElevation_witness :
    requiresElevation ⟨"alice", some "root"⟩ = true := by
  have h := c8_requiresElevation ⟨"alice", some "root"⟩ (by decide)
  cases hb : requiresElevation ⟨"alice", some "root"⟩ with
  | true => rfl
  | false => exact absurd (h.mp hb) (by decide)

/-- C10: access-denial classification takes precedence on the read
path: every load failure matching the access-denied signal (the
explicit problem code or the permission/authorization message pattern,
i.e. `isAccessDenied`) is reported as permission denial and leaves the
in-memory document state unchanged, even when its error text also
contains the no-crontab phrase. -/
theorem c10_accessDeniedPrecedence (e : SpawnErr) (st : DocState)
    (h : isAccessDenied e = true) :
    classifyLoadFailure e = LoadOutcome.accessDenied ∧
      loadFailureUpdate e st = st := by
  constructor
  · simp [classifyLoadFailure, h]
  · simp [loadFailureUpdate, classifyLoadFailure, h]

/-- Witness for C10: a failure carrying the `access-denied` problem
code whose error text also contains `"no crontab for"` is classified as
access denial and the document state survives unchanged. -/
theorem c10_accessDeniedPrecedence_witness :
    occursIn ("no crontab for".data)
        (lowerL (errorText
          ⟨some "access-denied", none, some "no crontab for bob", none,
            "x"⟩).data) = true ∧
      classifyLoadFailure
          ⟨some "access-denied", none, some "no crontab for bob", none, "x"⟩ =
        LoadOutcome.accessDenied ∧
      loadFailureUpdate
          ⟨some "access-denied", none, some "no crontab for bob", none, "x"⟩
          ⟨"keep", [⟨LineKind.entry, "keep", 0⟩]⟩ =
        ⟨"keep", [⟨LineKind.entry, "keep", 0⟩]⟩ := by
  have h := c10_accessDeniedPrecedence
    ⟨some "access-denied", none, some "no crontab for bob", none, "x"⟩
    ⟨"keep", [⟨LineKind.entry, "keep", 0⟩]⟩ (by decide)
  exact ⟨by decide, h.1, h.2⟩

/-- C7 counterexample: the claim quantifies over every failure whose
error text contains `"no crontab for"`, but a failure that also matches
the access-denied signal is classified as access denial, not as the
no-crontab outcome, and the in-memory document is not reset to the
empty document. -/
theorem c7_counterexample :
    occursIn ("no crontab for".data)
        (lowerL (errorText
          ⟨some "access-denied", some "no crontab for bob", none, none,
            "x"⟩).data) = true ∧
      classifyLoadFailure
          ⟨some "access-denied", some "no crontab for bob", none, none, "x"⟩ ≠
        LoadOutcome.noExisting ∧
      loadFailureUpdate
          ⟨some "access-denied", some "no crontab for bob", none, none, "x"⟩
          ⟨"x", []⟩ ≠
        (⟨"", []⟩ : DocState) := by
  refine ⟨by decide, by decide, by decide⟩

/-- C7 (amended): every failure that does not match the access-denied
signal and whose captured error text contains `"no crontab for"`
case-insensitively is classified as the no-crontab outcome, and the
read path resets the in-memory document to the empty document. -/
theorem c7_noExistingCrontab (e : SpawnErr) (st : DocState)
    (h1 : isAccessDenied e = false)
    (h2 : occursIn ("no crontab for".data) (lowerL (errorText e).data) = true) :
    classifyLoadFailure e = LoadOutcome.noExisting ∧
      loadFailureUpdate e st = ⟨"", []⟩ := by
  constructor
  · simp [classifyLoadFailure, h1, h2]
  · simp [loadFailureUpdate, classifyLoadFailure, h1, h2]

/-- Witness for the amended C7 at the spec's own example text
`"no crontab for bob"`. -/
theorem c7_noExistingCrontab_witness :
    isAccessDenied ⟨none, none, some "no crontab for bob", none,
        "[object Object]"⟩ = false ∧
      classifyLoadFailure
          ⟨none, none, some "no crontab for bob", none, "[object Object]"⟩ =
        LoadOutcome.noExisting ∧
      loadFailureUpdate
          ⟨none, none, some "no crontab for bob", none, "[object Object]"⟩
          ⟨"old", [⟨LineKind.entry, "old", 0⟩]⟩ =
        (⟨"", []⟩ : DocState) := by
  have h := c7_noExistingCrontab
    ⟨none, none, some "no crontab for bob", none, "[object Object]"⟩
    ⟨"old", [⟨LineKind.entry, "old", 0⟩]⟩ (by decide) (by decide)
  exact ⟨by decide, h.1, h.2⟩

/-- C1: the write stage always embeds the serialized document content
inside the shell command-line text it spawns: for every temp path and
every content, the third element of the constructed argv is a shell
script that contains the content verbatim between a fixed prefix (the
redirection and here-doc opener) and a fixed suffix (the here-doc
terminator).  This refutes the claim that the content is transferred as
raw data and never interpolated into command text: a content line equal
to `EOF` terminates the here-doc early and the remaining content lines
are executed as shell commands. -/
theorem c1_writeCmdEmbedsContent (tmp content : String) :
    ∃ pre post : String,
      writeCmd tmp content = ["/bin/sh", "-c", pre ++ content ++ post] := by
  refine ⟨"cat > " ++ tmp ++ hereMark, "\nEOF\n", ?_⟩
  simp [writeCmd, String.append_assoc]

theorem string_mk_eq_empty_iff (l : List Char) : String.mk l = "" ↔ l = [] := by
  constructor
  · intro h
    have := congrArg String.data h
    simpa using this
  · rintro rfl
    rfl

theorem rmArgv_ne_mktempArgv (t : String) : rmArgv t ≠ mktempArgv := by
  simp [rmArgv, mktempArgv]

theorem rmArgv_ne_writeCmd (t a b : String) : rmArgv t ≠ writeCmd a b := by
  simp [rmArgv, writeCmd]

theorem rmArgv_ne_installArgv (t : String) (uf : Option String) (a : String) :
    rmArgv t ≠ installArgv uf a := by
  cases uf <;> simp [rmArgv, installArgv]

theorem rmArgv_ne_listArgv (t : String) (uf : Option String) :
    rmArgv t ≠ listArgv uf := by
  cases uf <;> simp [rmArgv, listArgv]

/-- C2 counterexample: a run that created its temp file (mktemp
resolved with path `/tmp/t`) and then failed at the write step spawns
no removal command at all — the temp file is not cleaned up on this
exit path, against the claimed cleanup invariant. -/
theorem c2_counterexample :
    (installCrontab "line\n" none
        ⟨Except.ok "/tmp/t",
          Except.error ⟨none, some "write failed", none, none, "x"⟩,
          Except.ok "", Except.ok ""⟩).trace =
      [mktempArgv, writeCmd "/tmp/t" "line\n"] ∧
    rmArgv "/tmp/t" ∉
      (installCrontab "line\n" none
        ⟨Except.ok "/tmp/t",
          Except.error ⟨none, some "write failed", none, none, "x"⟩,
          Except.ok "", Except.ok ""⟩).trace ∧
    (installCrontab "line\n" none
        ⟨Except.ok "/tmp/t",
          Except.error ⟨none, some "write failed", none, none, "x"⟩,
          Except.ok "", Except.ok ""⟩).outcome = PipeOutcome.genericFail := by
  refine ⟨by decide, by decide, by decide⟩

/-- C2 (amended): the pipeline spawns a temp-file removal exactly on
the runs whose mktemp produced a usable path and whose write and
install steps both succeeded; on every failure path after the temp file
has been created, no removal is spawned and the temp file is left
behind. -/
theorem c2_cleanupOnlyOnSuccess (content : String) (userFlag : Option String)
    (env : InstallEnv) :
    (∃ tmp, rmArgv tmp ∈ (installCrontab content userFlag env).trace) ↔
      (∃ out, env.mktempRes = Except.ok out ∧ jsTrim out.data ≠ [] ∧
        (∃ w, env.writeRes = Except.ok w) ∧
        (∃ v, env.installRes = Except.ok v)) := by
  obtain ⟨mk, wr, ins, rm⟩ := env
  cases mk with
  | error e =>
    simp only [installCrontab]
    constructor
    · rintro ⟨t, ht⟩
      simp at ht
      exact absurd ht (rmArgv_ne_mktempArgv t)
    · rintro ⟨out, hout, -⟩
      cases hout
  | ok out =>
    by_cases htmp : String.mk (jsTrim out.data) = ""
    · simp only [installCrontab, htmp, if_pos]
      constructor
      · rintro ⟨t, ht⟩
        simp at ht
        exact absurd ht (rmArgv_ne_mktempArgv t)
      · rintro ⟨out', hout, hne, -⟩
        cases hout
        exact absurd ((string_mk_eq_empty_iff _).mp htmp) hne
    · cases wr with
      | error e =>
        simp only [installCrontab, htmp, if_neg, if_false]
        constructor
        · rintro ⟨t, ht⟩
          simp at ht
          rcases ht with ht | ht
          · exact absurd ht (rmArgv_ne_mktempArgv t)
          · exact absurd ht (rmArgv_ne_writeCmd t _ _)
        · rintro ⟨out', hout, -, ⟨w, hw⟩, -⟩
          cases hw
      | ok w =>
        cases ins with
        | error e =>
          simp only [installCrontab, htmp, if_neg, if_false]
          constructor
          · rintro ⟨t, ht⟩
            simp at ht
            rcases ht with ht | ht | ht
            · exact absurd ht (rmArgv_ne_mktempArgv t)
            · exact absurd ht (rmArgv_ne_writeCmd t _ _)
            · exact absurd ht (rmArgv_ne_installArgv t _ _)
          · rintro ⟨out', hout, -, -, ⟨v, hv⟩⟩
            cases hv
        | ok v =>
          have hmem : ∃ tmp,
              rmArgv tmp ∈ (installCrontab content userFlag
                ⟨Except.ok out, Except.ok w, Except.ok v, rm⟩).trace := by
            refine ⟨String.mk (jsTrim out.data), ?_⟩
            cases rm with
            | error e => simp [installCrontab, htmp]
            | ok u => simp [installCrontab, htmp]
          constructor
          · intro _
            exact ⟨out, rfl, fun h => htmp ((string_mk_eq_empty_iff _).mpr h),
              ⟨w, rfl⟩, ⟨v, rfl⟩⟩
          · intro _
            exact hmem

theorem consHead_ne_nil (c : Char) (S : List (List Char)) : consHead c S ≠ [] := by
  cases S <;> simp [consHead]

theorem consHead_append {X Y : List (List Char)} (c : Char) (h : X ≠ []) :
    consHead c (X ++ Y) = consHead c X ++ Y := by
  cases X with
  | nil => exact absurd rfl h
  | cons x xs => simp [consHead]

theorem splitLines_nil_eq : splitLines [] = [[]] := by
  conv_lhs => rw [splitLines.eq_def]

theorem splitLines_cons_eq (c : Char) (cs : List Char) :
    splitLines (c :: cs) =
      if c = '\n' then [] :: splitLines cs
      else
        if c = '\r' then
          match cs with
          | '\n' :: cs' => [] :: splitLines cs'
          | [] => consHead c (splitLines [])
          | d :: cs' => consHead c (splitLines (d :: cs'))
        else consHead c (splitLines cs) := by
  conv_lhs => rw [splitLines.eq_def]

theorem splitLines_nl (cs : List Char) :
    splitLines ('\n' :: cs) = [] :: splitLines cs := by
  rw [splitLines_cons_eq, if_pos rfl]

theorem splitLines_cons {c : Char} (cs : List Char) (h1 : c ≠ '\n')
    (h2 : c ≠ '\r') : splitLines (c :: cs) = consHead c (splitLines cs) := by
  rw [splitLines_cons_eq, if_neg h1, if_neg h2]

theorem splitLines_ne_nil (l : List Char) : splitLines l ≠ [] := by
  cases l with
  | nil =>
    rw [splitLines_nil_eq]
    simp
  | cons c cs =>
    rw [splitLines_cons_eq]
    split
    · simp
    · split
      · split
        · simp
        · exact consHead_ne_nil _ _
        · exact consHead_ne_nil _ _
      · exact consHead_ne_nil _ _

theorem splitLines_no_nl {l : List Char} (h1 : '\n' ∉ l) (h2 : '\r' ∉ l) :
    splitLines l = [l] := by
  induction l with
  | nil => rfl
  | cons c cs ih =>
    have hc1 : c ≠ '\n' := fun h => h1 (List.mem_cons.mpr (Or.inl h.symm))
    have hc2 : c ≠ '\r' := fun h => h2 (List.mem_cons.mpr (Or.inl h.symm))
    have h1' : '\n' ∉ cs := fun h => h1 (List.mem_cons.mpr (Or.inr h))
    have h2' : '\r' ∉ cs := fun h => h2 (List.mem_cons.mpr (Or.inr h))
    rw [splitLines_cons cs hc1 hc2, ih h1' h2']
    simp [consHead]

theorem splitLines_append {A : List Char} (B : List Char) (hA : '\r' ∉ A) :
    splitLines (A ++ '\n' :: B) = splitLines A ++ splitLines B := by
  induction A with
  | nil => simp [splitLines_nl, splitLines]
  | cons c cs ih =>
    have hc2 : c ≠ '\r' := fun h => hA (List.mem_cons.mpr (Or.inl h.symm))
    have hcs : '\r' ∉ cs := fun h => hA (List.mem_cons.mpr (Or.inr h))
    by_cases hc1 : c = '\n'
    · subst hc1
      rw [List.cons_append, splitLines_nl, splitLines_nl, ih hcs,
        List.cons_append]
    · rw [List.cons_append, splitLines_cons _ hc1 hc2,
        splitLines_cons cs hc1 hc2, ih hcs,
        consHead_append c (splitLines_ne_nil cs)]

theorem joinLines_cons {S : List (List Char)} (l : List Char) (h : S ≠ []) :
    joinLines (l :: S) = l ++ '\n' :: joinLines S := by
  cases S with
  | nil => exact absurd rfl h
  | cons s ss => rfl

theorem joinLines_consHead {S : List (List Char)} (c : Char) (h : S ≠ []) :
    joinLines (consHead c S) = c :: joinLines S := by
  cases S with
  | nil => exact absurd rfl h
  | cons s ss =>
    cases ss with
    | nil => rfl
    | cons t ts => rfl

theorem joinLines_splitLines {l : List Char} (h : '\r' ∉ l) :
    joinLines (splitLines l) = l := by
  induction l with
  | nil => rfl
  | cons c cs ih =>
    have hc2 : c ≠ '\r' := fun hc => h (List.mem_cons.mpr (Or.inl hc.symm))
    have hcs : '\r' ∉ cs := fun hc => h (List.mem_cons.mpr (Or.inr hc))
    by_cases hc1 : c = '\n'
    · subst hc1
      rw [splitLines_nl, joinLines_cons [] (splitLines_ne_nil cs), ih hcs]
      rfl
    · rw [splitLines_cons cs hc1 hc2,
        joinLines_consHead c (splitLines_ne_nil cs), ih hcs]

theorem mkLines_map_text (n : Nat) (S : List (List Char)) :
    (mkLines n S).map (fun cl => cl.text.data) = S := by
  induction S generalizing n with
  | nil => rfl
  | cons s ss ih => simp [mkLines, ih]

theorem mkLines_length (n : Nat) (S : List (List Char)) :
    (mkLines n S).length = S.length := by
  induction S generalizing n with
  | nil => rfl
  | cons s ss ih => simp [mkLines, ih]

theorem mkLines_append (n : Nat) (A B : List (List Char)) :
    mkLines n (A ++ B) = mkLines n A ++ mkLines (n + A.length) B := by
  induction A generalizing n with
  | nil => simp [mkLines]
  | cons a as ih =>
    rw [List.cons_append]
    simp only [mkLines, ih (n + 1), List.cons_append, List.cons.injEq, true_and]
    have : n + 1 + as.length = n + (as.length + 1) := by omega
    rw [this]
    simp

theorem mkLines_mem_kind :
    ∀ (S : List (List Char)) (n : Nat) (cl : CronLine), cl ∈ mkLines n S →
      cl.kind = classifyLine cl.text.data := by
  intro S
  induction S with
  | nil => intro n cl h; simp [mkLines] at h
  | cons s ss ih =>
    intro n cl h
    rcases List.mem_cons.mp h with h | h
    · subst h; rfl
    · exact ih _ _ h

theorem string_mk_data (s : String) : String.mk s.data = s := by
  cases s
  rfl

theorem addEntry_of_valid (raw expr cmd : String)
    (h : validateCron expr = true) :
    addEntry raw expr cmd = AddResult.install (addContent raw expr cmd) := by
  simp [addEntry, h]

/-- C5 counterexample: for `T = "a\n"` the round trip yields
`"a\n\n"` — a second newline is appended to the already
newline-terminated text, which is neither `T` nor `T` with a normalized
trailing newline. -/
theorem c5_counterexample :
    serialize (parseCrontab "a\n") = "a\n\n" ∧ ¬specRoundTripOk "a\n" := by
  constructor
  · decide
  · unfold specRoundTripOk
    decide

/-- C5 (amended): for any text `T` using `\n` line endings (no carriage
returns), `serialize (parseCrontab T)` equals `T ++ "\n"` exactly — a
trailing newline is appended unconditionally, so the result is `T` with
a normalized trailing newline precisely when `T` does not already end
in one.  Parsing itself never fails and classifies every line from its
own text as blank, comment, or entry. -/
theorem c5_roundTrip (T : String) (h : '\r' ∉ T.data) :
    serialize (parseCrontab T) = T ++ "\n" ∧
    ∀ cl ∈ parseCrontab T, cl.kind = classifyLine cl.text.data := by
  constructor
  · unfold serialize parseCrontab
    rw [mkLines_map_text, joinLines_splitLines h]
    apply String.ext
    rw [String.data_append]
  · intro cl hcl
    exact mkLines_mem_kind _ _ _ hcl

/-- Witness for the amended C5 at a concrete two-line text. -/
theorem c5_roundTrip_witness :
    serialize (parseCrontab "# a\nb") = "# a\nb" ++ "\n" ∧
    ∀ cl ∈ parseCrontab "# a\nb", cl.kind = classifyLine cl.text.data :=
  c5_roundTrip "# a\nb" (by decide)

theorem filterIdx_cons {α : Type} (keep : Nat → Bool) (n : Nat) (a : α)
    (l : List α) :
    filterIdx keep n (a :: l) =
      if keep n then a :: filterIdx keep (n + 1) l
      else filterIdx keep (n + 1) l := rfl

theorem filterIdx_keep_all {α : Type} (i n : Nat) (l : List α) (h : i < n) :
    filterIdx (fun m => m ≠ i) n l = l := by
  induction l generalizing n with
  | nil => rfl
  | cons a t ih =>
    have hc : decide (n ≠ i) = true := decide_eq_true (by omega)
    rw [filterIdx_cons, if_pos hc, ih (n + 1) (by omega)]

theorem filterIdx_oob {α : Type} (i n : Nat) (l : List α)
    (h : n + l.length ≤ i) : filterIdx (fun m => m ≠ i) n l = l := by
  induction l generalizing n with
  | nil => rfl
  | cons a t ih =>
    have hlen : n + (t.length + 1) ≤ i := by simpa using h
    have hc : decide (n ≠ i) = true := decide_eq_true (by omega)
    rw [filterIdx_cons, if_pos hc, ih (n + 1) (by omega)]

theorem filterIdx_erase {α : Type} (l : List α) :
    ∀ n i, n ≤ i → i - n < l.length →
      filterIdx (fun m => m ≠ i) n l =
        l.take (i - n) ++ l.drop (i - n + 1) := by
  induction l with
  | nil =>
    intro n i _ h
    simp at h
  | cons a t ih =>
    intro n i hni hlt
    by_cases heq : n = i
    · subst heq
      have hc : decide (n ≠ n) = false := by simp
      rw [filterIdx_cons, if_neg (by simp), filterIdx_keep_all n (n + 1) t
        (by omega), Nat.sub_self]
      rfl
    · have hlt' : i - (n + 1) < t.length := by
        simp at hlt
        omega
      have hc : decide (n ≠ i) = true := decide_eq_true heq
      have hk : i - n = (i - (n + 1)) + 1 := by omega
      rw [filterIdx_cons, if_pos hc, ih (n + 1) i (by omega) hlt', hk,
        List.take_succ_cons, List.drop_succ_cons]
      rfl

/-- C4 counterexample: deleting at the out-of-bounds index 5 of a
one-line document does not fail with an index error — the filter
removes nothing and the pipeline proceeds to reinstall the unchanged
content. -/
theorem c4_counterexample :
    deleteEntryLines (parseCrontab "a") 5 = ["a"] ∧
    deleteEntryAt (parseCrontab "a") 5 = "a\n" := by
  constructor
  · decide
  · decide

/-- C4 (amended): for an in-bounds index `i` the surviving line list of
`deleteEntryAt` has exactly `n - 1` lines — precisely the line at
position `i` removed, all others in their original relative order; for
an out-of-bounds index the operation does not fail: it keeps every
line, reinstalling content identical to the current document. -/
theorem c4_removeEntryAt (lines : List CronLine) (i : Nat) :
    (i < lines.length →
      (deleteEntryLines lines i).length = lines.length - 1 ∧
      deleteEntryLines lines i =
        (lines.take i ++ lines.drop (i + 1)).map (fun cl => cl.text)) ∧
    (lines.length ≤ i →
      deleteEntryLines lines i = lines.map (fun cl => cl.text)) := by
  constructor
  · intro h
    have he := filterIdx_erase lines 0 i (Nat.zero_le i) (by simpa using h)
    rw [Nat.sub_zero] at he
    unfold deleteEntryLines
    rw [he]
    constructor
    · simp [List.length_take, List.length_drop]
      omega
    · rfl
  · intro h
    unfold deleteEntryLines
    rw [filterIdx_oob i 0 lines (by omega)]

/-- Witness for the amended C4: deleting index 1 of a three-line
document keeps lines 0 and 2 in order, and deleting index 5 of a
one-line document keeps everything. -/
theorem c4_removeEntryAt_witness :
    (deleteEntryLines (parseCrontab "a\nb\nc") 1).length =
        (parseCrontab "a\nb\nc").length - 1 ∧
    deleteEntryLines (parseCrontab "a\nb\nc") 1 =
      ((parseCrontab "a\nb\nc").take 1 ++
        (parseCrontab "a\nb\nc").drop 2).map (fun cl => cl.text) ∧
    deleteEntryLines (parseCrontab "a") 5 =
      (parseCrontab "a").map (fun cl => cl.text) := by
  have h1 := (c4_removeEntryAt (parseCrontab "a\nb\nc") 1).1 (by decide)
  have h2 := (c4_removeEntryAt (parseCrontab "a") 5).2 (by decide)
  exact ⟨h1.1, h1.2, h2⟩

theorem validateCron_trim_ne (s : String) (h : validateCron s = true) :
    jsTrim s.data ≠ [] := by
  intro ht
  simp only [validateCron] at h
  rw [jsSplitWs_of_trim, if_pos ht] at h
  simp at h

theorem mem_jsTrim {a : Char} {l : List Char} (h : a ∈ jsTrim l) : a ∈ l := by
  unfold jsTrim jsTrimEnd at h
  rw [List.mem_reverse] at h
  have h1 := (@List.dropWhile_sublist Char (l.dropWhile isWs).reverse
    isWs).subset h
  rw [List.mem_reverse] at h1
  exact (@List.dropWhile_sublist Char l isWs).subset h1

theorem addLine_data (expr cmd : String) :
    (addLine expr cmd).data = jsTrim expr.data ++ ' ' :: jsTrim cmd.data := by
  unfold addLine
  rw [String.data_append, String.data_append]
  show (jsTrim expr.data ++ [' ']) ++ jsTrim cmd.data = _
  simp [List.append_assoc]

theorem classifyLine_entry {h : Char} {rest : List Char}
    (hws : isWs h = false) (hh : h ≠ '#') :
    classifyLine (h :: rest) = LineKind.entry := by
  have hne : jsTrim (h :: rest) ≠ [] := by
    intro hnil
    rw [jsTrim_nil_iff] at hnil
    exact absurd (hnil h (by simp)) (by simp [hws])
  have hd : ((h :: rest).dropWhile isWs).head? = some h := by
    rw [List.dropWhile_cons, if_neg (by simp [hws])]
    rfl
  unfold classifyLine
  rw [if_neg hne, hd, if_neg (by simp [hh])]

/-- C3 counterexample: appending a valid entry to the one-line document
`"a"` produces content whose parse is the old line, the new entry, and
then a trailing `Blank` line — the result's last line is not the
appended `Entry`, so the claimed shape `D ++ [Entry]` does not hold. -/
theorem c3_counterexample :
    addEntry "a" "1 2 3 4 5" "x" = AddResult.install "a\n1 2 3 4 5 x\n" ∧
    parseCrontab "a\n1 2 3 4 5 x\n" =
      [⟨LineKind.entry, "a", 0⟩, ⟨LineKind.entry, "1 2 3 4 5 x", 1⟩,
       ⟨LineKind.blank, "", 2⟩] ∧
    (parseCrontab "a\n1 2 3 4 5 x\n").getLast? =
      some ⟨LineKind.blank, "", 2⟩ := by
  refine ⟨by decide, by decide, by decide⟩

/-- C3 (amended): with a valid schedule, `addEntry` fails with a
validation error only before any host interaction and otherwise
installs `raw + "\n" + line + "\n"` with `line = s.trim + " " + c.trim`;
provided the raw text is non-blank with no trailing whitespace
(`trimEnd` leaves it unchanged), the schedule and command contain no
line breaks, the trimmed schedule does not start with `'#'`, and the
texts are free of carriage returns, the parsed result is exactly the
original document's lines followed by the new `Entry` line and one
trailing `Blank` line (from the final newline).  The inputs are values,
never mutated. -/
theorem c3_appendEntry (raw s c : String)
    (hv : validateCron s = true)
    (hte : jsTrimEnd raw.data = raw.data)
    (htr : jsTrim raw.data ≠ [])
    (hhash : (jsTrim s.data).head? ≠ some '#')
    (hsafe : ∀ ch ∈ s.data, ch ≠ '\n' ∧ ch ≠ '\r')
    (hcsafe : ∀ ch ∈ c.data, ch ≠ '\n' ∧ ch ≠ '\r')
    (hraw : '\r' ∉ raw.data) :
    addEntry raw s c =
      AddResult.install (raw ++ "\n" ++ addLine s c ++ "\n") ∧
    parseCrontab (raw ++ "\n" ++ addLine s c ++ "\n") =
      parseCrontab raw ++
        [⟨LineKind.entry, addLine s c, (parseCrontab raw).length⟩,
         ⟨LineKind.blank, "", (parseCrontab raw).length + 1⟩] := by
  have hsne : jsTrim s.data ≠ [] := validateCron_trim_ne s hv
  obtain ⟨h0, t0, hst⟩ : ∃ h0 t0, jsTrim s.data = h0 :: t0 := by
    cases hst : jsTrim s.data with
    | nil => exact absurd hst hsne
    | cons x xs => exact ⟨x, xs, rfl⟩
  have hws0 : isWs h0 = false := jsTrim_head_ws hst
  have hh0 : h0 ≠ '#' := by
    rw [hst] at hhash
    simpa using hhash
  have hline : (addLine s c).data = h0 :: (t0 ++ ' ' :: jsTrim c.data) := by
    rw [addLine_data, hst]
    rfl
  have hlineNoNl : '\n' ∉ (addLine s c).data := by
    rw [addLine_data]
    intro hm
    rcases List.mem_append.mp hm with hm | hm
    · exact (hsafe '\n' (mem_jsTrim hm)).1 rfl
    · rcases List.mem_cons.mp hm with hm | hm
      · exact absurd hm (by decide)
      · exact (hcsafe '\n' (mem_jsTrim hm)).1 rfl
  have hlineNoCr : '\r' ∉ (addLine s c).data := by
    rw [addLine_data]
    intro hm
    rcases List.mem_append.mp hm with hm | hm
    · exact (hsafe '\r' (mem_jsTrim hm)).2 rfl
    · rcases List.mem_cons.mp hm with hm | hm
      · exact absurd hm (by decide)
      · exact (hcsafe '\r' (mem_jsTrim hm)).2 rfl
  have hclass : classifyLine (addLine s c).data = LineKind.entry := by
    rw [hline]
    exact classifyLine_entry hws0 hh0
  have hrne : raw ≠ "" := by
    intro h
    apply htr
    rw [h]
    rfl
  have hmkne : String.mk (jsTrim raw.data) ≠ "" :=
    fun h => htr ((string_mk_eq_empty_iff _).mp h)
  constructor
  · rw [addEntry_of_valid raw s c hv]
    unfold addContent
    rw [if_pos (by rw [Bool.and_eq_true]
                   exact ⟨decide_eq_true hrne, decide_eq_true hmkne⟩)]
    rw [hte, string_mk_data]
  · have hdata : (raw ++ "\n" ++ addLine s c ++ "\n").data =
        raw.data ++ '\n' :: ((addLine s c).data ++ '\n' :: []) := by
      rw [String.data_append, String.data_append, String.data_append]
      show ((raw.data ++ ['\n']) ++ (addLine s c).data) ++ ['\n'] = _
      simp [List.append_assoc]
    unfold parseCrontab
    rw [hdata, splitLines_append _ hraw, splitLines_append _ hlineNoCr,
      splitLines_no_nl hlineNoNl hlineNoCr, splitLines_nil_eq,
      mkLines_append]
    congr 1
    rw [Nat.zero_add, mkLines_length]
    show (⟨classifyLine (addLine s c).data, String.mk (addLine s c).data,
      (splitLines raw.data).length⟩ : CronLine) ::
        ⟨classifyLine [], String.mk [], (splitLines raw.data).length + 1⟩ ::
          [] = _
    rw [hclass, string_mk_data]
    have hn : (splitLines raw.data).length = (parseCrontab raw).length := by
      unfold parseCrontab
      rw [mkLines_length]
    rw [hn]
    rfl

/-- Witness for the amended C3 at the one-comment document `"# x"`. -/
theorem c3_appendEntry_witness :
    addEntry "# x" "1 2 3 4 5" "echo hi" =
      AddResult.install ("# x" ++ "\n" ++ addLine "1 2 3 4 5" "echo hi" ++
        "\n") ∧
    parseCrontab ("# x" ++ "\n" ++ addLine "1 2 3 4 5" "echo hi" ++ "\n") =
      parseCrontab "# x" ++
        [⟨LineKind.entry, addLine "1 2 3 4 5" "echo hi",
          (parseCrontab "# x").length⟩,
         ⟨LineKind.blank, "", (parseCrontab "# x").length + 1⟩] :=
  c3_appendEntry "# x" "1 2 3 4 5" "echo hi" (by decide) (by decide)
    (by decide) (by decide) (by decide) (by decide) (by decide)

/-- C9 counterexample: in the schedule where a second add-entry
mutation is issued while the first is suspended at its first await,
the second run is a legal interleaving with the first (never rejected:
it completes with success, not with a busy outcome), and it overwrites
the first run's installed document — the final host crontab is the
second run's content, which was computed from the pre-run state and
does not contain the first run's entry. -/
theorem c9_counterexample :
    Interleaving (runActs RunId.r1) (runActs RunId.r2) overlapSched ∧
    (execActs
        (fun r => match r with
          | RunId.r1 => ("* * * * *", "cmd-one")
          | RunId.r2 => ("* * * * *", "cmd-two"))
        ⟨"", "", none, none, none, none⟩ overlapSched).o2 =
      some MutOutcome.success ∧
    (execActs
        (fun r => match r with
          | RunId.r1 => ("* * * * *", "cmd-one")
          | RunId.r2 => ("* * * * *", "cmd-two"))
        ⟨"", "", none, none, none, none⟩ overlapSched).o2 ≠
      some MutOutcome.busy ∧
    (execActs
        (fun r => match r with
          | RunId.r1 => ("* * * * *", "cmd-one")
          | RunId.r2 => ("* * * * *", "cmd-two"))
        ⟨"", "", none, none, none, none⟩ overlapSched).host =
      "* * * * * cmd-two\n" ∧
    occursIn ("cmd-one".data)
      (execActs
        (fun r => match r with
          | RunId.r1 => ("* * * * *", "cmd-one")
          | RunId.r2 => ("* * * * *", "cmd-two"))
        ⟨"", "", none, none, none, none⟩ overlapSched).host.data = false := by
  refine ⟨?_, by decide, by decide, by decide, by decide⟩
  exact Interleaving.left (Interleaving.right (Interleaving.left
    (Interleaving.left (Interleaving.right (Interleaving.right
      Interleaving.nil)))))

/-- C9 (amended): the code keeps no per-session in-flight state, so a
second mutation issued while a pipeline run is active is not rejected
with a busy outcome but executed, interleaved with the active run; in
the overlapping schedule both runs report success and the final host
content is the second run's content, computed from the pre-run
document — the first run's update is silently overwritten. -/
theorem c9_noBusyRejection (raw0 host0 e1 k1 e2 k2 : String)
    (h1 : validateCron e1 = true) (h2 : validateCron e2 = true) :
    Interleaving (runActs RunId.r1) (runActs RunId.r2) overlapSched ∧
    addEntry raw0 e2 k2 = AddResult.install (addContent raw0 e2 k2) ∧
    execActs
        (fun r => match r with
          | RunId.r1 => (e1, k1)
          | RunId.r2 => (e2, k2))
        ⟨raw0, host0, none, none, none, none⟩ overlapSched =
      ⟨addContent raw0 e2 k2, addContent raw0 e2 k2,
        some (addContent raw0 e1 k1), some (addContent raw0 e2 k2),
        some MutOutcome.success, some MutOutcome.success⟩ := by
  refine ⟨Interleaving.left (Interleaving.right (Interleaving.left
    (Interleaving.left (Interleaving.right (Interleaving.right
      Interleaving.nil))))), addEntry_of_valid raw0 e2 k2 h2, ?_⟩
  simp [execActs, overlapSched, cstep, Sess.contentOf,
    addEntry_of_valid raw0 e1 k1 h1, addEntry_of_valid raw0 e2 k2 h2]

/-- Witness for the amended C9 at concrete inputs: two valid add-entry
requests overlapping in one session, where the second completes with
success and clobbers the first. -/
theorem c9_noBusyRejection_witness :
    Interleaving (runActs RunId.r1) (runActs RunId.r2) overlapSched ∧
    addEntry "" "0 2 * * *" "job-two" =
      AddResult.install (addContent "" "0 2 * * *" "job-two") ∧
    execActs
        (fun r => match r with
          | RunId.r1 => ("0 1 * * *", "job-one")
          | RunId.r2 => ("0 2 * * *", "job-two"))
        ⟨"", "", none, none, none, none⟩ overlapSched =
      ⟨addContent "" "0 2 * * *" "job-two", addContent "" "0 2 * * *" "job-two",
        some (addContent "" "0 1 * * *" "job-one"),
        some (addContent "" "0 2 * * *" "job-two"),
        some MutOutcome.success, some MutOutcome.success⟩ :=
  c9_noBusyRejection "" "" "0 1 * * *" "job-one" "0 2 * * *" "job-two"
    (by decide) (by decide)

end Cronmanager
